import Mathlib

/-!
Shallow embedding of `src/policy/generic_replay_buffer.py`, the experience
replay buffer of this repository.  Numeric cell values are modelled as `Int`
(the buffer only moves values around; no arithmetic on cell contents occurs).
A numpy `ndarray` is modelled as its shape together with its flat data in
C order.  Operations that can raise in Python return the raised error
explicitly; `PyError.replayBufferError` models the source's single exception
class `ReplayBufferError`, while `PyError.valueError` models the `ValueError`
raised by numpy itself on impossible reshapes or broadcast-incompatible
slice assignments, and `PyError.nameError` models a Python `NameError`.
-/

/-- Errors that can surface from the buffer's methods:
the repository's own `ReplayBufferError`, numpy's `ValueError`
(bad reshape / broadcast-incompatible assignment), and Python's `NameError`. -/
inductive PyError where
  | replayBufferError
  | valueError
  | nameError
deriving Repr, DecidableEq

/-- Model of `prod` (module-level helper): multiplies the elements of a shape
tuple, with `1` prepended so the empty tuple gives `1`
(`functools.reduce(lambda x,y: x*y, (1,) + l)`). -/
def prod (l : List Nat) : Nat := l.foldl (fun x y => x * y) 1

/-- A numpy `ndarray`: its shape and its elements flattened in C order. -/
structure NDArray where
  shape : List Nat
  data : List Int
deriving Repr, DecidableEq

/-- `np.ndarray.flatten` / `np.array(x).flatten()`: collapse to one dimension,
keeping the C-order element sequence. -/
def NDArray.flatten (x : NDArray) : NDArray := ⟨[x.data.length], x.data⟩

/-- `np.expand_dims(x, axis=0)`: prepend a unit dimension. -/
def NDArray.expandDims0 (x : NDArray) : NDArray := ⟨1 :: x.shape, x.data⟩

/-- Cut `data` into `n` consecutive rows of `w` elements each
(the row-major layout of a reshape to `(n, w)`). -/
def chunkRows : Nat → Nat → List Int → List (List Int)
  | 0, _, _ => []
  | n + 1, w, data => data.take w :: chunkRows n w (data.drop w)

/-- `np.reshape(x, (n, -1))`: numpy infers the trailing dimension as
`x.size / n`, raising `ValueError` when `n = 0` or `n` does not divide the
element count.  Returns the resulting rows. -/
def reshapeToRows (x : NDArray) (n : Nat) : Except PyError (List (List Int)) :=
  if n = 0 then .error .valueError
  else if x.data.length % n ≠ 0 then .error .valueError
  else .ok (chunkRows n (x.data.length / n) x.data)

/-- `np.concatenate((s, a, r, d, sp), axis=-1)` on five row lists of equal
length: concatenate the five corresponding rows of each example. -/
def concatRows (sR aR rR dR spR : List (List Int)) : List (List Int) :=
  List.zipWith (fun x y => x ++ y)
    (List.zipWith (fun x y => x ++ y)
      (List.zipWith (fun x y => x ++ y)
        (List.zipWith (fun x y => x ++ y) sR aR) rR) dR) spR

/-- The replay buffer object: fields mirror `ReplayBuffer.__init__`
(`_size`, `_contains`, `_s_shape`, `_a_shape`, `_r_shape`, `_queue`; the
stored `_s_size`, `_a_size`, `_r_size`, `_d_size`, `_sars_size` fields are
deterministic functions of the shapes and are modelled as accessors below). -/
structure ReplayBuffer where
  size : Nat
  contains : Nat
  sShape : List Nat
  aShape : List Nat
  rShape : List Nat
  queue : List (List Int)
deriving Repr, DecidableEq

/-- `self._s_size = prod(self._s_shape)`. -/
def ReplayBuffer.sSize (b : ReplayBuffer) : Nat := prod b.sShape

/-- `self._a_size = prod(self._a_shape)`. -/
def ReplayBuffer.aSize (b : ReplayBuffer) : Nat := prod b.aShape

/-- `self._r_size = prod(self._r_shape)`. -/
def ReplayBuffer.rSize (b : ReplayBuffer) : Nat := prod b.rShape

/-- `self._d_size = 1` (done mask is a scalar per example). -/
def ReplayBuffer.dSize (_b : ReplayBuffer) : Nat := 1

/-- `self._sars_size = self._s_size * 2 + self._a_size + self._r_size + self._d_size`. -/
def ReplayBuffer.sarsSize (b : ReplayBuffer) : Nat :=
  b.sSize * 2 + b.aSize + b.rSize + b.dSize

/-- The body of `ReplayBuffer.__init__` with the name `size` supplied: sets
`_contains = 0`, records the shapes, and allocates
`_queue = np.zeros((size, sars_size))`.  In the source `size` is *not* a
parameter of `__init__` (though its own docstring documents it as one); the
name is unbound at the point of use, so it is taken here as an explicit
argument (see `ReplayBuffer.initCall` for the behaviour of an actual call). -/
def ReplayBuffer.init (size : Nat) (sShape aShape rShape : List Nat) : ReplayBuffer :=
  { size := size
    contains := 0
    sShape := sShape
    aShape := aShape
    rShape := rShape
    queue := List.replicate size
      (List.replicate (prod sShape * 2 + prod aShape + prod rShape + 1) 0) }

/-- What a call `ReplayBuffer(s_shape, a_shape, r_shape)` actually does in the
source: the constructor body evaluates the unbound name `size`
(`self._size = size` with no `size` in scope), so every construction raises
`NameError` before any field is usable. -/
def ReplayBuffer.initCall (_sShape _aShape _rShape : List Nat) :
    Except PyError ReplayBuffer :=
  .error .nameError

/-- `should_sample` property: `self._size <= self._contains`. -/
def ReplayBuffer.shouldSample (b : ReplayBuffer) : Bool :=
  decide (b.size ≤ b.contains)

/-- `_pop(n)`: `self._queue[:-n] = self._queue[n:]`.  Rows `0 .. size-n-1`
receive the old rows `n .. size-1`; the last `n` rows keep their old values
("garbage memory").  For `n ≥ size` both slices are empty so the queue is
untouched; `List.drop` saturates exactly the same way. -/
def ReplayBuffer.pop (b : ReplayBuffer) (n : Nat) : ReplayBuffer :=
  { b with queue := b.queue.drop n ++ b.queue.drop (b.queue.length - n) }

/-- `_push(sarses)`: `self._queue[-sarses_len:] = sarses`.  The target slice
holds the last `min n size` rows (all `size` rows when `n = 0`, since
`queue[-0:]` is the whole array).  numpy broadcasting accepts the assignment
only when the source row count equals the target's or is `1`, and the source
row width equals `_sars_size` or is `1`; otherwise it raises `ValueError`.
Accepted sources are broadcast (replicated) onto the target slice. -/
def ReplayBuffer.push (b : ReplayBuffer) (sarses : List (List Int)) :
    Except PyError ReplayBuffer :=
  let n := sarses.length
  let w := (sarses.headD []).length
  let tgt := if n = 0 then b.queue.length else min n b.queue.length
  if n ≠ tgt ∧ n ≠ 1 then .error .valueError
  else if w ≠ b.sarsSize ∧ w ≠ 1 then .error .valueError
  else
    let rows0 := if n = tgt then sarses else List.replicate tgt (sarses.headD [])
    let rows := rows0.map (fun row =>
      if row.length = b.sarsSize then row else List.replicate b.sarsSize (row.headD 0))
    .ok { b with queue := b.queue.take (b.queue.length - tgt) ++ rows }

/-- `_encode_sarses(s, a, r, sp, d)`: reject unequal leading dimensions with
`ReplayBufferError`, reshape each input to `(batch_size, -1)`, and concatenate
in the fixed order `(s, a, r, d, sp)` along the feature axis.  Note: the
per-example element counts are *not* compared with the declared shapes. -/
def encodeSarses (s a r sp d : NDArray) : Except PyError (List (List Int)) :=
  let batchSize := s.shape.headD 0
  if batchSize ≠ a.shape.headD 0 ∨ batchSize ≠ r.shape.headD 0 ∨
      batchSize ≠ sp.shape.headD 0 ∨ batchSize ≠ d.shape.headD 0 then
    .error .replayBufferError
  else
    match reshapeToRows s batchSize, reshapeToRows a batchSize,
        reshapeToRows r batchSize, reshapeToRows sp batchSize,
        reshapeToRows d batchSize with
    | .ok sR, .ok aR, .ok rR, .ok spR, .ok dR =>
        .ok (concatRows sR aR rR dR spR)
    | .error e, _, _, _, _ => .error e
    | _, .error e, _, _, _ => .error e
    | _, _, .error e, _, _ => .error e
    | _, _, _, .error e, _ => .error e
    | _, _, _, _, .error e => .error e

/-- `np.reshape(x, (-1,) + shape)`: numpy infers the leading dimension as
`x.size / prod(shape)`, raising `ValueError` when `prod(shape) = 0` or it
does not divide the element count. -/
def reshapeNeg1 (rows : List (List Int)) (shape : List Nat) :
    Except PyError NDArray :=
  let data := rows.flatten
  let k := prod shape
  if k = 0 then .error .valueError
  else if data.length % k ≠ 0 then .error .valueError
  else .ok ⟨data.length / k :: shape, data⟩

/-- `_decode_sarses(sarses)`: slice the feature axis at the boundaries
`s_div`, `a_div`, `r_div`, `d_div` derived from the stored sizes, reshape each
slice back to `(-1,) + declared shape`, and return `(s, a, r, sp, d)`. -/
def ReplayBuffer.decodeSarses (b : ReplayBuffer) (sarses : List (List Int)) :
    Except PyError (NDArray × NDArray × NDArray × NDArray × NDArray) :=
  let sDiv := b.sSize
  let aDiv := b.aSize + sDiv
  let rDiv := b.rSize + aDiv
  let dDiv := b.dSize + rDiv
  let sRows := sarses.map (fun row => row.take sDiv)
  let aRows := sarses.map (fun row => (row.drop sDiv).take (aDiv - sDiv))
  let rRows := sarses.map (fun row => (row.drop aDiv).take (rDiv - aDiv))
  let dRows := sarses.map (fun row => (row.drop rDiv).take (dDiv - rDiv))
  let spRows := sarses.map (fun row => row.drop dDiv)
  match reshapeNeg1 sRows b.sShape, reshapeNeg1 aRows b.aShape,
      reshapeNeg1 rRows b.rShape, reshapeNeg1 spRows b.sShape,
      reshapeNeg1 dRows [] with
  | .ok s, .ok a, .ok r, .ok sp, .ok d => .ok (s, a, r, sp, d)
  | .error e, _, _, _, _ => .error e
  | _, .error e, _, _, _ => .error e
  | _, _, .error e, _, _ => .error e
  | _, _, _, .error e, _ => .error e
  | _, _, _, _, .error e => .error e

/-- `store_example_batch(s, a, r, sp, done_mask)`: flatten the action, reward
and done arrays, encode, bump `_contains` by the batch length while the gate
is not yet satisfied (`if not self.should_sample`, written here with the
property's defining condition `size ≤ contains` unfolded), then `_pop` and
`_push`.  The returned pair is the
buffer state *when the call returns or raises* together with the raised error
(if any): a failure inside `_push` happens after `_contains` was updated and
`_pop` already shifted the queue. -/
def ReplayBuffer.storeExampleBatch (b : ReplayBuffer)
    (sArr aArr rArr spArr doneMask : NDArray) : ReplayBuffer × Option PyError :=
  let aArr := aArr.flatten
  let rArr := rArr.flatten
  let doneMask := doneMask.flatten
  match encodeSarses sArr aArr rArr spArr doneMask with
  | .error e => (b, some e)
  | .ok sarses =>
    let sarsesLen := sarses.length
    let b1 := if b.size ≤ b.contains then b
      else { b with contains := b.contains + sarsesLen }
    let b2 := b1.pop sarsesLen
    match b2.push sarses with
    | .error e => (b2, some e)
    | .ok b3 => (b3, none)

/-- `store_example(s, a, r, sp, done)`: expand every argument by a leading
unit dimension and delegate to `store_example_batch`. -/
def ReplayBuffer.storeExample (b : ReplayBuffer) (s a r sp done : NDArray) :
    ReplayBuffer × Option PyError :=
  b.storeExampleBatch s.expandDims0 a.expandDims0 r.expandDims0
    sp.expandDims0 done.expandDims0

/-- `sample(n)`: raise `ReplayBufferError` unless the gate is satisfied and
`n ≤ size` (`if not self.should_sample or n > self._size`, with the
property's defining condition unfolded); otherwise gather the rows at
`indices` (the model's stand-in for
the outcome of `np.random.choice(size, n, replace=False)`, which yields `n`
pairwise-distinct indices below `size`) and decode them.  The second
component is the buffer after the call: `sample` assigns to no field, so it
is the input state itself. -/
def ReplayBuffer.sample (b : ReplayBuffer) (n : Nat) (indices : List Nat) :
    Except PyError (NDArray × NDArray × NDArray × NDArray × NDArray) × ReplayBuffer :=
  (if ¬ b.size ≤ b.contains ∨ b.size < n then .error .replayBufferError
   else b.decodeSarses (indices.map (fun i => b.queue.getD i [])), b)

/-- Run `store_example_batch` over a list of input batches, stopping at the
first raised error (an uncaught Python exception aborts the loop). -/
def storeBatchSeq : ReplayBuffer →
    List (NDArray × NDArray × NDArray × NDArray × NDArray) →
    ReplayBuffer × Option PyError
  | b, [] => (b, none)
  | b, t :: ts =>
    match b.storeExampleBatch t.1 t.2.1 t.2.2.1 t.2.2.2.1 t.2.2.2.2 with
    | (b2, none) => storeBatchSeq b2 ts
    | (b2, some e) => (b2, some e)

/-- One SARS transition with scalar action, reward and done flag, used to
state the FIFO property for sequences of single-example stores. -/
structure Transition where
  s : List Int
  a : Int
  r : Int
  sp : List Int
  d : Int
deriving Repr, DecidableEq, Inhabited

/-- The packed record `[state | action | reward | done | next_state]` that
encoding a single transition produces. -/
def rowOf (t : Transition) : List Int :=
  t.s ++ [t.a] ++ [t.r] ++ [t.d] ++ t.sp

/-- Feed one transition to `store_example`, presenting each component with
its configured shape (scalar action/reward/done). -/
def storeTr (b : ReplayBuffer) (t : Transition) : ReplayBuffer × Option PyError :=
  b.storeExample ⟨b.sShape, t.s⟩ ⟨b.aShape, [t.a]⟩ ⟨b.rShape, [t.r]⟩
    ⟨b.sShape, t.sp⟩ ⟨[], [t.d]⟩

/-- Run `store_example` over a list of single transitions, stopping at the
first raised error. -/
def storeTrSeq : ReplayBuffer → List Transition → ReplayBuffer × Option PyError
  | b, [] => (b, none)
  | b, t :: ts =>
    match storeTr b t with
    | (b2, none) => storeTrSeq b2 ts
    | (b2, some e) => (b2, some e)

/-- Structural invariant of every buffer the constructor can produce:
the queue has `size` rows, each of width `_sars_size`. -/
def ReplayBuffer.WF (b : ReplayBuffer) : Prop :=
  b.queue.length = b.size ∧ ∀ row ∈ b.queue, row.length = b.sarsSize

/-! ### Basic lemmas about the row-chunking and concatenation helpers -/

theorem chunkRows_length (n w : Nat) (data : List Int) :
    (chunkRows n w data).length = n := by
  induction n generalizing data with
  | zero => rfl
  | succ n ih => simp [chunkRows, ih]

theorem chunkRows_row_length (n w : Nat) (data : List Int)
    (h : data.length = n * w) :
    ∀ row ∈ chunkRows n w data, row.length = w := by
  induction n generalizing data with
  | zero => intro row hr; simp [chunkRows] at hr
  | succ n ih =>
    rw [Nat.succ_mul] at h
    intro row hr
    rw [chunkRows] at hr
    rcases List.mem_cons.mp hr with hr | hr
    · subst hr; simp [List.length_take]; omega
    · exact ih (data.drop w) (by simp [List.length_drop, h]) row hr

theorem chunkRows_flatten (n w : Nat) (data : List Int)
    (h : data.length = n * w) :
    (chunkRows n w data).flatten = data := by
  induction n generalizing data with
  | zero =>
    simp [chunkRows]
    exact List.eq_nil_of_length_eq_zero (by simpa using h)
  | succ n ih =>
    rw [Nat.succ_mul] at h
    rw [chunkRows, List.flatten_cons, ih (data.drop w) (by simp [List.length_drop, h]),
      List.take_append_drop]

theorem flatten_length_const (rows : List (List Int)) (k : Nat)
    (h : ∀ row ∈ rows, row.length = k) :
    rows.flatten.length = rows.length * k := by
  induction rows with
  | nil => simp
  | cons row rows ih =>
    rw [List.flatten_cons, List.length_append, h row (by simp),
      ih (fun x hx => h x (by simp [hx])), List.length_cons, Nat.succ_mul]
    omega

theorem headD_mem {α : Type} (l : List α) (d : α) (h : l ≠ []) : l.headD d ∈ l := by
  cases l with
  | nil => exact absurd rfl h
  | cons x xs => simp

theorem concatRows_length (sR aR rR dR spR : List (List Int))
    (ha : aR.length = sR.length) (hr : rR.length = sR.length)
    (hd : dR.length = sR.length) (hsp : spR.length = sR.length) :
    (concatRows sR aR rR dR spR).length = sR.length := by
  simp [concatRows, ha, hr, hd, hsp]

theorem concatRows_row_length {ks ka kr kd ksp : Nat} :
    ∀ (sR aR rR dR spR : List (List Int)),
      aR.length = sR.length → rR.length = sR.length →
      dR.length = sR.length → spR.length = sR.length →
      (∀ x ∈ sR, x.length = ks) → (∀ x ∈ aR, x.length = ka) →
      (∀ x ∈ rR, x.length = kr) → (∀ x ∈ dR, x.length = kd) →
      (∀ x ∈ spR, x.length = ksp) →
      ∀ row ∈ concatRows sR aR rR dR spR,
        row.length = ks + ka + kr + kd + ksp := by
  intro sR
  induction sR with
  | nil =>
    intro aR rR dR spR _ _ _ _ _ _ _ _ _ row hrow
    simp [concatRows] at hrow
  | cons s sR ih =>
    intro aR rR dR spR ha hr hd hsp hS hA hR hD hSP row hrow
    cases aR with
    | nil => simp at ha
    | cons a aR =>
    cases rR with
    | nil => simp at hr
    | cons r rR =>
    cases dR with
    | nil => simp at hd
    | cons d dR =>
    cases spR with
    | nil => simp at hsp
    | cons sp spR =>
    have hrows : concatRows (s :: sR) (a :: aR) (r :: rR) (d :: dR) (sp :: spR)
        = ((((s ++ a) ++ r) ++ d) ++ sp) :: concatRows sR aR rR dR spR := by
      simp [concatRows]
    rw [hrows] at hrow
    rcases List.mem_cons.mp hrow with hrow | hrow
    · subst hrow
      simp [List.length_append, hS s (by simp), hA a (by simp), hR r (by simp),
        hD d (by simp), hSP sp (by simp)]
      omega
    · exact ih aR rR dR spR (by simpa using ha) (by simpa using hr)
        (by simpa using hd) (by simpa using hsp)
        (fun x hx => hS x (by simp [hx])) (fun x hx => hA x (by simp [hx]))
        (fun x hx => hR x (by simp [hx])) (fun x hx => hD x (by simp [hx]))
        (fun x hx => hSP x (by simp [hx])) row hrow

theorem concatRows_slices {ks ka kr kd : Nat} :
    ∀ (sR aR rR dR spR : List (List Int)),
      aR.length = sR.length → rR.length = sR.length →
      dR.length = sR.length → spR.length = sR.length →
      (∀ x ∈ sR, x.length = ks) → (∀ x ∈ aR, x.length = ka) →
      (∀ x ∈ rR, x.length = kr) → (∀ x ∈ dR, x.length = kd) →
      (concatRows sR aR rR dR spR).map (fun row => row.take ks) = sR ∧
      (concatRows sR aR rR dR spR).map (fun row => (row.drop ks).take ka) = aR ∧
      (concatRows sR aR rR dR spR).map
        (fun row => (row.drop (ks + ka)).take kr) = rR ∧
      (concatRows sR aR rR dR spR).map
        (fun row => (row.drop (ks + ka + kr)).take kd) = dR ∧
      (concatRows sR aR rR dR spR).map
        (fun row => row.drop (ks + ka + kr + kd)) = spR := by
  intro sR
  induction sR with
  | nil =>
    intro aR rR dR spR ha hr hd hsp _ _ _ _
    rw [List.eq_nil_of_length_eq_zero ha, List.eq_nil_of_length_eq_zero hr,
      List.eq_nil_of_length_eq_zero hd, List.eq_nil_of_length_eq_zero hsp]
    simp [concatRows]
  | cons s sR ih =>
    intro aR rR dR spR ha hr hd hsp hS hA hR hD
    cases aR with
    | nil => simp at ha
    | cons a aR =>
    cases rR with
    | nil => simp at hr
    | cons r rR =>
    cases dR with
    | nil => simp at hd
    | cons d dR =>
    cases spR with
    | nil => simp at hsp
    | cons sp spR =>
    have hs' : s.length = ks := hS s (by simp)
    have ha' : a.length = ka := hA a (by simp)
    have hr' : r.length = kr := hR r (by simp)
    have hd' : d.length = kd := hD d (by simp)
    have hrows : concatRows (s :: sR) (a :: aR) (r :: rR) (d :: dR) (sp :: spR)
        = ((((s ++ a) ++ r) ++ d) ++ sp) :: concatRows sR aR rR dR spR := by
      simp [concatRows]
    obtain ⟨e1, e2, e3, e4, e5⟩ := ih aR rR dR spR (by simpa using ha)
      (by simpa using hr) (by simpa using hd) (by simpa using hsp)
      (fun x hx => hS x (by simp [hx])) (fun x hx => hA x (by simp [hx]))
      (fun x hx => hR x (by simp [hx])) (fun x hx => hD x (by simp [hx]))
    refine ⟨?_, ?_, ?_, ?_, ?_⟩ <;> rw [hrows, List.map_cons]
    · rw [e1]
      congr 1
      rw [List.append_assoc, List.append_assoc, List.append_assoc]
      exact List.take_left' hs'
    · rw [e2]
      congr 1
      rw [List.append_assoc, List.append_assoc, List.append_assoc,
        List.drop_left' hs']
      exact List.take_left' ha'
    · rw [e3]
      congr 1
      have hsplit : (((s ++ a) ++ r) ++ d) ++ sp
          = (s ++ a) ++ (r ++ (d ++ sp)) := by
        simp [List.append_assoc]
      rw [hsplit, List.drop_left' (by simp [List.length_append, hs', ha'])]
      exact List.take_left' hr'
    · rw [e4]
      congr 1
      have hsplit : (((s ++ a) ++ r) ++ d) ++ sp
          = ((s ++ a) ++ r) ++ (d ++ sp) := by
        simp [List.append_assoc]
      rw [hsplit,
        List.drop_left' (by simp [List.length_append, hs', ha', hr']; omega)]
      exact List.take_left' hd'
    · rw [e5]
      congr 1
      exact List.drop_left'
        (by simp [List.length_append, hs', ha', hr', hd']; omega)

/-! ### Lemmas characterising the buffer's operations on valid inputs -/

theorem reshapeToRows_ok (x : NDArray) (n k : Nat) (hn : 0 < n)
    (hlen : x.data.length = n * k) :
    reshapeToRows x n = .ok (chunkRows n k x.data) := by
  have hdiv : x.data.length / n = k := by
    rw [hlen]; exact Nat.mul_div_cancel_left k hn
  unfold reshapeToRows
  rw [if_neg (by omega), if_neg (by simp [hlen, Nat.mul_mod_right]), hdiv]

theorem reshapeNeg1_ok (rows : List (List Int)) (shape : List Nat) (m : Nat)
    (hk : 0 < prod shape) (hlen : rows.flatten.length = m * prod shape) :
    reshapeNeg1 rows shape = .ok ⟨m :: shape, rows.flatten⟩ := by
  have hdiv : rows.flatten.length / prod shape = m := by
    rw [hlen]; exact Nat.mul_div_cancel m hk
  unfold reshapeNeg1
  rw [if_neg (by omega), if_neg (by simp [hlen, Nat.mul_mod_left]), hdiv]

theorem encodeSarses_ok (s a r sp d : NDArray) (n ks ka kr ksp kd : Nat)
    (hn : 0 < n)
    (hsh : s.shape.headD 0 = n) (hah : a.shape.headD 0 = n)
    (hrh : r.shape.headD 0 = n) (hsph : sp.shape.headD 0 = n)
    (hdh : d.shape.headD 0 = n)
    (hsl : s.data.length = n * ks) (hal : a.data.length = n * ka)
    (hrl : r.data.length = n * kr) (hspl : sp.data.length = n * ksp)
    (hdl : d.data.length = n * kd) :
    encodeSarses s a r sp d = .ok (concatRows (chunkRows n ks s.data)
      (chunkRows n ka a.data) (chunkRows n kr r.data)
      (chunkRows n kd d.data) (chunkRows n ksp sp.data)) := by
  unfold encodeSarses
  rw [hsh, hah, hrh, hsph, hdh, if_neg (by simp),
    reshapeToRows_ok s n ks hn hsl, reshapeToRows_ok a n ka hn hal,
    reshapeToRows_ok r n kr hn hrl, reshapeToRows_ok sp n ksp hn hspl,
    reshapeToRows_ok d n kd hn hdl]

theorem reshapeToRows_ok_inv {x : NDArray} {n : Nat} {l : List (List Int)}
    (h : reshapeToRows x n = .ok l) :
    l.length = n ∧ ∀ row ∈ l, row.length = x.data.length / n := by
  unfold reshapeToRows at h
  split at h
  · exact absurd h (by simp)
  · split at h
    · exact absurd h (by simp)
    · cases h
      refine ⟨chunkRows_length _ _ _, chunkRows_row_length _ _ _ ?_⟩
      next hn hmod =>
      have hdvd : n ∣ x.data.length := Nat.dvd_of_mod_eq_zero (by omega)
      exact (Nat.mul_div_cancel' hdvd).symm

theorem encodeSarses_ok_length {s a r sp d : NDArray}
    {rows : List (List Int)} (h : encodeSarses s a r sp d = .ok rows) :
    rows.length = s.shape.headD 0 := by
  unfold encodeSarses at h
  simp only [] at h
  by_cases hc : (s.shape.headD 0 ≠ a.shape.headD 0 ∨
      s.shape.headD 0 ≠ r.shape.headD 0 ∨ s.shape.headD 0 ≠ sp.shape.headD 0 ∨
      s.shape.headD 0 ≠ d.shape.headD 0)
  · rw [if_pos hc] at h
    exact absurd h (by simp)
  · rw [if_neg hc] at h
    rcases hS : reshapeToRows s (s.shape.headD 0) with eS | sR <;> rw [hS] at h
    · exact absurd h (by simp)
    rcases hA : reshapeToRows a (s.shape.headD 0) with eA | aR <;> rw [hA] at h
    · exact absurd h (by simp)
    rcases hR : reshapeToRows r (s.shape.headD 0) with eR | rR <;> rw [hR] at h
    · exact absurd h (by simp)
    rcases hSP : reshapeToRows sp (s.shape.headD 0) with eSP | spR <;>
      rw [hSP] at h
    · exact absurd h (by simp)
    rcases hD : reshapeToRows d (s.shape.headD 0) with eD | dR <;> rw [hD] at h
    · exact absurd h (by simp)
    have hok : concatRows sR aR rR dR spR = rows := by
      simpa using h
    have lS := (reshapeToRows_ok_inv hS).1
    have lA := (reshapeToRows_ok_inv hA).1
    have lR := (reshapeToRows_ok_inv hR).1
    have lSP := (reshapeToRows_ok_inv hSP).1
    have lD := (reshapeToRows_ok_inv hD).1
    rw [← hok, concatRows_length sR aR rR dR spR (by omega) (by omega)
      (by omega) (by omega), lS]

theorem push_ok (b : ReplayBuffer) (sarses : List (List Int)) (n : Nat)
    (hlen : sarses.length = n) (hn : 0 < n) (hsize : n ≤ b.queue.length)
    (hw : ∀ row ∈ sarses, row.length = b.sarsSize) :
    b.push sarses
      = .ok { b with queue := b.queue.take (b.queue.length - n) ++ sarses } := by
  have hne : sarses ≠ [] := by
    intro hnil; rw [hnil] at hlen; simp at hlen; omega
  have hhd : (sarses.headD []).length = b.sarsSize :=
    hw _ (headD_mem sarses [] hne)
  unfold ReplayBuffer.push
  simp only []
  rw [hlen]
  have htgt : (if n = 0 then b.queue.length else min n b.queue.length) = n := by
    rw [if_neg (by omega)]; omega
  rw [htgt, if_neg (by simp), if_neg (fun hcon => hcon.1 hhd), if_pos rfl]
  have hmap : sarses.map (fun row =>
      if row.length = b.sarsSize then row
      else List.replicate b.sarsSize (row.headD 0)) = sarses := by
    rw [List.map_congr_left (fun row hr => if_pos (hw row hr))]
    exact List.map_id' sarses
  rw [hmap]

theorem push_error_of_width (b : ReplayBuffer) (sarses : List (List Int))
    (n : Nat) (hlen : sarses.length = n) (hn : 0 < n)
    (hsize : n ≤ b.queue.length)
    (hw : (sarses.headD []).length ≠ b.sarsSize)
    (hw1 : (sarses.headD []).length ≠ 1) :
    b.push sarses = .error .valueError := by
  unfold ReplayBuffer.push
  simp only []
  rw [hlen]
  have htgt : (if n = 0 then b.queue.length else min n b.queue.length) = n := by
    rw [if_neg (by omega)]; omega
  rw [htgt, if_neg (by simp), if_pos ⟨hw, hw1⟩]

theorem push_error_of_oversize (b : ReplayBuffer) (sarses : List (List Int))
    (hlen : b.queue.length < sarses.length) (h1 : sarses.length ≠ 1) :
    b.push sarses = .error .valueError := by
  unfold ReplayBuffer.push
  simp only []
  rw [if_pos ?_]
  refine ⟨?_, h1⟩
  rw [if_neg (by omega)]
  omega

theorem push_ok_fields {b : ReplayBuffer} {sarses : List (List Int)}
    {b2 : ReplayBuffer} (h : b.push sarses = .ok b2) :
    b2.contains = b.contains ∧ b2.size = b.size ∧
    b2.sShape = b.sShape ∧ b2.aShape = b.aShape ∧ b2.rShape = b.rShape := by
  unfold ReplayBuffer.push at h
  simp only [] at h
  by_cases h1 : (sarses.length ≠ (if sarses.length = 0 then b.queue.length
      else min sarses.length b.queue.length) ∧ sarses.length ≠ 1)
  · rw [if_pos h1] at h
    exact absurd h (by simp)
  · rw [if_neg h1] at h
    by_cases h2 : ((sarses.headD []).length ≠ b.sarsSize ∧
        (sarses.headD []).length ≠ 1)
    · rw [if_pos h2] at h
      exact absurd h (by simp)
    · rw [if_neg h2] at h
      injection h with h
      rw [← h]
      exact ⟨rfl, rfl, rfl, rfl, rfl⟩

theorem storeExampleBatch_encode_error (b : ReplayBuffer) (s a r sp d : NDArray)
    (e : PyError)
    (h : encodeSarses s a.flatten r.flatten sp d.flatten = .error e) :
    b.storeExampleBatch s a r sp d = (b, some e) := by
  unfold ReplayBuffer.storeExampleBatch
  simp only []
  rw [h]

theorem storeExampleBatch_of_encode_ok (b : ReplayBuffer) (s a r sp d : NDArray)
    {sarses : List (List Int)}
    (henc : encodeSarses s a.flatten r.flatten sp d.flatten = .ok sarses) :
    b.storeExampleBatch s a r sp d =
      (let b1 := if b.size ≤ b.contains then b
        else { b with contains := b.contains + sarses.length };
      let b2 := b1.pop sarses.length;
      match b2.push sarses with
      | .error e => (b2, some e)
      | .ok b3 => (b3, none)) := by
  unfold ReplayBuffer.storeExampleBatch
  simp only []
  rw [henc]

theorem storeExampleBatch_fields (b : ReplayBuffer) (s a r sp d : NDArray) :
    (b.storeExampleBatch s a r sp d).1.size = b.size ∧
    b.contains ≤ (b.storeExampleBatch s a r sp d).1.contains ∧
    ((b.storeExampleBatch s a r sp d).2 = none →
      (b.storeExampleBatch s a r sp d).1.contains
        = if b.size ≤ b.contains then b.contains
          else b.contains + s.shape.headD 0) := by
  rcases henc : encodeSarses s a.flatten r.flatten sp d.flatten with e | sarses
  · rw [storeExampleBatch_encode_error b s a r sp d e henc]
    simp
  · rw [storeExampleBatch_of_encode_ok b s a r sp d henc]
    have hlen : sarses.length = s.shape.headD 0 := encodeSarses_ok_length henc
    simp only []
    by_cases hss : b.size ≤ b.contains
    · rw [if_pos hss, if_pos hss]
      rcases hp : (b.pop sarses.length).push sarses with e | b3
      · simp [ReplayBuffer.pop]
      · obtain ⟨hc, hs, _⟩ := push_ok_fields hp
        simp [hc, hs, ReplayBuffer.pop]
    · rw [if_neg hss, if_neg hss]
      rcases hp : (ReplayBuffer.pop
          { b with contains := b.contains + sarses.length }
          sarses.length).push sarses with e | b3
      · simp [ReplayBuffer.pop, hlen]
      · obtain ⟨hc, hs, _⟩ := push_ok_fields hp
        simp [hc, hs, ReplayBuffer.pop, hlen]

theorem pop_push_ok (b : ReplayBuffer) (sarses : List (List Int)) (n : Nat)
    (hlen : sarses.length = n) (hn : 0 < n) (hsize : n ≤ b.queue.length)
    (hw : ∀ row ∈ sarses, row.length = b.sarsSize) :
    (b.pop n).push sarses = .ok { b with queue := b.queue.drop n ++ sarses } := by
  have hql2 : (b.pop n).queue.length = b.queue.length := by
    simp only [ReplayBuffer.pop]
    simp [List.length_drop]
  have h := push_ok (b.pop n) sarses n hlen hn (by omega) hw
  rw [h]
  have hqeq : (b.pop n).queue.take ((b.pop n).queue.length - n) ++ sarses
      = b.queue.drop n ++ sarses := by
    rw [hql2]
    simp only [ReplayBuffer.pop]
    congr 1
    exact List.take_left' (by simp [List.length_drop])
  rw [hqeq]
  rfl

theorem storeExampleBatch_ok (b : ReplayBuffer) (s a r sp d : NDArray)
    (n ks ksp : Nat) (hn : 0 < n) (hsize : n ≤ b.size) (hwf : b.WF)
    (hsh : s.shape.headD 0 = n) (hsph : sp.shape.headD 0 = n)
    (hal : a.data.length = n) (hrl : r.data.length = n) (hdl : d.data.length = n)
    (hsl : s.data.length = n * ks) (hspl : sp.data.length = n * ksp)
    (hw : ks + 1 + 1 + 1 + ksp = b.sarsSize) :
    b.storeExampleBatch s a r sp d =
      ({ b with
          contains := if b.size ≤ b.contains then b.contains
            else b.contains + n,
          queue := b.queue.drop n ++ concatRows (chunkRows n ks s.data)
            (chunkRows n 1 a.data) (chunkRows n 1 r.data)
            (chunkRows n 1 d.data) (chunkRows n ksp sp.data) }, none) := by
  have hql : b.queue.length = b.size := hwf.1
  have henc : encodeSarses s a.flatten r.flatten sp d.flatten
      = .ok (concatRows (chunkRows n ks s.data) (chunkRows n 1 a.data)
        (chunkRows n 1 r.data) (chunkRows n 1 d.data)
        (chunkRows n ksp sp.data)) := by
    have h := encodeSarses_ok s a.flatten r.flatten sp d.flatten n ks 1 1 ksp 1
      hn hsh (by simpa [NDArray.flatten] using hal)
      (by simpa [NDArray.flatten] using hrl) hsph
      (by simpa [NDArray.flatten] using hdl) hsl
      (by simpa [NDArray.flatten] using hal)
      (by simpa [NDArray.flatten] using hrl) hspl
      (by simpa [NDArray.flatten] using hdl)
    simpa [NDArray.flatten] using h
  set sarses := concatRows (chunkRows n ks s.data) (chunkRows n 1 a.data)
    (chunkRows n 1 r.data) (chunkRows n 1 d.data) (chunkRows n ksp sp.data)
    with hsar
  have hclen : ∀ (w : Nat) (data : List Int),
      (chunkRows n w data).length = (chunkRows n ks s.data).length := by
    intro w data
    rw [chunkRows_length, chunkRows_length]
  have hslen : sarses.length = n := by
    rw [hsar, concatRows_length _ _ _ _ _ (hclen 1 a.data) (hclen 1 r.data)
      (hclen 1 d.data) (hclen ksp sp.data), chunkRows_length]
  have hrows : ∀ row ∈ sarses, row.length = b.sarsSize := by
    rw [hsar]
    intro row hr
    have hr2 := concatRows_row_length _ _ _ _ _ (hclen 1 a.data)
      (hclen 1 r.data) (hclen 1 d.data) (hclen ksp sp.data)
      (chunkRows_row_length n ks s.data hsl)
      (chunkRows_row_length n 1 a.data (by omega))
      (chunkRows_row_length n 1 r.data (by omega))
      (chunkRows_row_length n 1 d.data (by omega))
      (chunkRows_row_length n ksp sp.data hspl)
      row hr
    omega
  rw [storeExampleBatch_of_encode_ok b s a r sp d henc]
  simp only []
  rw [hslen]
  by_cases hss : b.size ≤ b.contains
  · rw [if_pos hss, if_pos hss,
      pop_push_ok b sarses n hslen hn (by omega) hrows]
  · rw [if_neg hss, if_neg hss,
      pop_push_ok { b with contains := b.contains + n } sarses n hslen hn
        (by show n ≤ b.queue.length; omega) hrows]

theorem storeTr_ok (b : ReplayBuffer) (t : Transition)
    (hwf : b.WF) (hsize : 1 ≤ b.size)
    (hA : prod b.aShape = 1) (hR : prod b.rShape = 1)
    (hs : t.s.length = prod b.sShape) (hsp : t.sp.length = prod b.sShape) :
    storeTr b t =
      ({ b with
          contains := if b.size ≤ b.contains then b.contains
            else b.contains + 1,
          queue := b.queue.drop 1 ++ [rowOf t] }, none) := by
  have hw : t.s.length + 1 + 1 + 1 + t.sp.length = b.sarsSize := by
    have hsz2 : b.sarsSize
        = prod b.sShape * 2 + prod b.aShape + prod b.rShape + 1 := rfl
    omega
  unfold storeTr ReplayBuffer.storeExample NDArray.expandDims0
  rw [storeExampleBatch_ok b ⟨1 :: b.sShape, t.s⟩ ⟨1 :: b.aShape, [t.a]⟩
    ⟨1 :: b.rShape, [t.r]⟩ ⟨1 :: b.sShape, t.sp⟩ ⟨1 :: [], [t.d]⟩
    1 t.s.length t.sp.length (by omega) hsize hwf rfl rfl rfl rfl rfl
    (Nat.one_mul _).symm (Nat.one_mul _).symm hw]
  have hcr : concatRows (chunkRows 1 t.s.length t.s) (chunkRows 1 1 [t.a])
      (chunkRows 1 1 [t.r]) (chunkRows 1 1 [t.d])
      (chunkRows 1 t.sp.length t.sp) = [rowOf t] := by
    simp [chunkRows, concatRows, rowOf, List.append_assoc]
  rw [hcr]

theorem storeTrSeq_ok :
    ∀ (ts : List Transition) (b : ReplayBuffer),
      b.WF → 1 ≤ b.size →
      prod b.aShape = 1 → prod b.rShape = 1 →
      (∀ t ∈ ts, t.s.length = prod b.sShape ∧ t.sp.length = prod b.sShape) →
      ∃ bF : ReplayBuffer,
        storeTrSeq b ts = (bF, none) ∧
        bF.queue = (b.queue ++ ts.map rowOf).drop ts.length ∧
        bF.size = b.size ∧ bF.sShape = b.sShape ∧ bF.WF := by
  intro ts
  induction ts with
  | nil =>
    intro b hwf hsz hA hR hts
    exact ⟨b, rfl, by simp, rfl, rfl, hwf⟩
  | cons t ts ih =>
    intro b hwf hsz hA hR hts
    have hq0 : b.queue.length = b.size := hwf.1
    have hstep := storeTr_ok b t hwf hsz hA hR (hts t (by simp)).1
      (hts t (by simp)).2
    set b1 : ReplayBuffer := { b with
      contains := if b.size ≤ b.contains then b.contains else b.contains + 1,
      queue := b.queue.drop 1 ++ [rowOf t] } with hb1
    have hq1 : b1.queue.length = b.size := by
      rw [hb1]
      simp [List.length_drop]
      omega
    have hwf1 : b1.WF := by
      refine ⟨hq1, ?_⟩
      intro row hr
      rw [hb1] at hr
      rcases List.mem_append.mp hr with h | h
      · exact hwf.2 row (List.mem_of_mem_drop h)
      · have hrow : row = rowOf t := by simpa using h
        subst hrow
        have hsz2 : b.sarsSize
            = prod b.sShape * 2 + prod b.aShape + prod b.rShape + 1 := rfl
        have hs := (hts t (by simp)).1
        have hsp := (hts t (by simp)).2
        have hbs : b1.sarsSize = b.sarsSize := rfl
        simp [rowOf, List.length_append]
        omega
    obtain ⟨bF, h1, h2, h3, h4, h5⟩ := ih b1 hwf1 (by rw [hb1]; exact hsz)
      (by rw [hb1]; exact hA) (by rw [hb1]; exact hR)
      (fun x hx => by rw [hb1]; exact hts x (by simp [hx]))
    refine ⟨bF, ?_, ?_, ?_, ?_, h5⟩
    · simp only [storeTrSeq]
      rw [hstep]
      exact h1
    · rw [h2, hb1]
      have hne : 1 ≤ b.queue.length := by omega
      calc ((b.queue.drop 1 ++ [rowOf t]) ++ ts.map rowOf).drop ts.length
          = (b.queue.drop 1 ++ (rowOf t :: ts.map rowOf)).drop ts.length := by
            simp [List.append_assoc]
        _ = ((b.queue ++ (rowOf t :: ts.map rowOf)).drop 1).drop ts.length := by
            rw [List.drop_append_of_le_length hne]
        _ = (b.queue ++ ((t :: ts).map rowOf)).drop (t :: ts).length := by
            rw [List.drop_drop]
            simp [Nat.add_comm]
    · rw [h3, hb1]
    · rw [h4, hb1]

theorem init_WF (c : Nat) (sShape aShape rShape : List Nat) :
    (ReplayBuffer.init c sShape aShape rShape).WF := by
  refine ⟨by simp [ReplayBuffer.init], ?_⟩
  intro row hr
  have hrow := List.eq_of_mem_replicate hr
  subst hrow
  simp [ReplayBuffer.init, ReplayBuffer.sarsSize, ReplayBuffer.sSize,
    ReplayBuffer.aSize, ReplayBuffer.rSize, ReplayBuffer.dSize]

theorem getD_mem {α : Type} (l : List α) (i : Nat) (d : α) (h : i < l.length) :
    l.getD i d ∈ l := by
  rw [List.getD_eq_getElem?_getD, List.getElem?_eq_getElem h, Option.getD_some]
  exact List.getElem_mem h

theorem decodeSarses_ok (b : ReplayBuffer) (rows : List (List Int)) (m : Nat)
    (hlen : rows.length = m)
    (hw : ∀ row ∈ rows, row.length = b.sarsSize)
    (hs : 0 < b.sSize) (ha : 0 < b.aSize) (hr : 0 < b.rSize) :
    b.decodeSarses rows = .ok
      (⟨m :: b.sShape, (rows.map (fun row => row.take b.sSize)).flatten⟩,
       ⟨m :: b.aShape,
         (rows.map (fun row => (row.drop b.sSize).take b.aSize)).flatten⟩,
       ⟨m :: b.rShape, (rows.map (fun row =>
         (row.drop (b.aSize + b.sSize)).take b.rSize)).flatten⟩,
       ⟨m :: b.sShape, (rows.map (fun row =>
         row.drop (b.dSize + (b.rSize + (b.aSize + b.sSize))))).flatten⟩,
       ⟨[m], (rows.map (fun row =>
         (row.drop (b.rSize + (b.aSize + b.sSize))).take b.dSize)).flatten⟩) := by
  have hsz : b.sarsSize = b.sSize * 2 + b.aSize + b.rSize + b.dSize := rfl
  have hd1 : b.dSize = 1 := rfl
  have hS : ∀ x ∈ rows.map (fun row => row.take b.sSize),
      x.length = b.sSize := by
    intro x hx
    rcases List.mem_map.mp hx with ⟨row, hrow, rfl⟩
    have := hw row hrow
    simp [List.length_take]
    omega
  have hA : ∀ x ∈ rows.map (fun row => (row.drop b.sSize).take b.aSize),
      x.length = b.aSize := by
    intro x hx
    rcases List.mem_map.mp hx with ⟨row, hrow, rfl⟩
    have := hw row hrow
    simp [List.length_take, List.length_drop]
    omega
  have hRr : ∀ x ∈ rows.map (fun row =>
      (row.drop (b.aSize + b.sSize)).take b.rSize), x.length = b.rSize := by
    intro x hx
    rcases List.mem_map.mp hx with ⟨row, hrow, rfl⟩
    have := hw row hrow
    simp [List.length_take, List.length_drop]
    omega
  have hD : ∀ x ∈ rows.map (fun row =>
      (row.drop (b.rSize + (b.aSize + b.sSize))).take b.dSize),
      x.length = b.dSize := by
    intro x hx
    rcases List.mem_map.mp hx with ⟨row, hrow, rfl⟩
    have := hw row hrow
    simp [List.length_take, List.length_drop]
    omega
  have hSP : ∀ x ∈ rows.map (fun row =>
      row.drop (b.dSize + (b.rSize + (b.aSize + b.sSize)))),
      x.length = b.sSize := by
    intro x hx
    rcases List.mem_map.mp hx with ⟨row, hrow, rfl⟩
    have := hw row hrow
    simp [List.length_drop]
    omega
  have flen : ∀ (f : List Int → List Int) (k : Nat),
      (∀ x ∈ rows.map f, x.length = k) →
      (rows.map f).flatten.length = m * k := by
    intro f k hk
    rw [flatten_length_const _ _ hk, List.length_map, hlen]
  unfold ReplayBuffer.decodeSarses
  simp only []
  rw [Nat.add_sub_cancel, Nat.add_sub_cancel, Nat.add_sub_cancel,
    reshapeNeg1_ok _ _ m hs (flen _ _ hS),
    reshapeNeg1_ok _ _ m ha (flen _ _ hA),
    reshapeNeg1_ok _ _ m hr (flen _ _ hRr),
    reshapeNeg1_ok _ _ m hs (flen _ _ hSP),
    reshapeNeg1_ok _ ([] : List Nat) m (by decide)
      (by simpa using flen _ _ hD)]

theorem sample_ok (b : ReplayBuffer) (n : Nat) (indices : List Nat)
    (hwf : b.WF) (hready : b.size ≤ b.contains) (hn : n ≤ b.size)
    (hlen : indices.length = n) (hb : ∀ i ∈ indices, i < b.size)
    (hs : 0 < b.sSize) (ha : 0 < b.aSize) (hr : 0 < b.rSize) :
    (b.sample n indices).1 = .ok
      (⟨n :: b.sShape, ((indices.map (fun i => b.queue.getD i [])).map
          (fun row => row.take b.sSize)).flatten⟩,
       ⟨n :: b.aShape, ((indices.map (fun i => b.queue.getD i [])).map
          (fun row => (row.drop b.sSize).take b.aSize)).flatten⟩,
       ⟨n :: b.rShape, ((indices.map (fun i => b.queue.getD i [])).map
          (fun row => (row.drop (b.aSize + b.sSize)).take b.rSize)).flatten⟩,
       ⟨n :: b.sShape, ((indices.map (fun i => b.queue.getD i [])).map
          (fun row =>
            row.drop (b.dSize + (b.rSize + (b.aSize + b.sSize))))).flatten⟩,
       ⟨[n], ((indices.map (fun i => b.queue.getD i [])).map
          (fun row =>
            (row.drop (b.rSize + (b.aSize + b.sSize))).take b.dSize)).flatten⟩) := by
  have hgl : (indices.map (fun i => b.queue.getD i [])).length = n := by
    rw [List.length_map, hlen]
  have hgw : ∀ row ∈ indices.map (fun i => b.queue.getD i []),
      row.length = b.sarsSize := by
    intro row hrow
    rcases List.mem_map.mp hrow with ⟨i, hi, rfl⟩
    exact hwf.2 _ (getD_mem _ _ _ (by rw [hwf.1]; exact hb i hi))
  unfold ReplayBuffer.sample
  simp only []
  rw [if_neg (by push_neg; exact ⟨hready, hn⟩),
    decodeSarses_ok b _ n hgl hgw hs ha hr]

/-- C1: for every valid batch `(s, a, r, sp, done)` whose five arrays share
the same leading dimension `n ≥ 1` and whose per-example element counts equal
the configured shape products (all positive), decoding the result of encoding
reproduces the five input arrays exactly, up to the per-example reshape to
the configured shapes (each output carries shape `(n,) + declared shape` and
bit-identical data). -/
theorem C1_encode_decode_round_trip (b : ReplayBuffer) (s a r sp d : NDArray)
    (n : Nat) (hn : 0 < n)
    (hks : 0 < prod b.sShape) (hka : 0 < prod b.aShape)
    (hkr : 0 < prod b.rShape)
    (hsh : s.shape.headD 0 = n) (hah : a.shape.headD 0 = n)
    (hrh : r.shape.headD 0 = n) (hsph : sp.shape.headD 0 = n)
    (hdh : d.shape.headD 0 = n)
    (hsl : s.data.length = n * prod b.sShape)
    (hal : a.data.length = n * prod b.aShape)
    (hrl : r.data.length = n * prod b.rShape)
    (hspl : sp.data.length = n * prod b.sShape)
    (hdl : d.data.length = n * 1) :
    ∃ rows, encodeSarses s a r sp d = .ok rows ∧
      b.decodeSarses rows = .ok
        (⟨n :: b.sShape, s.data⟩, ⟨n :: b.aShape, a.data⟩,
         ⟨n :: b.rShape, r.data⟩, ⟨n :: b.sShape, sp.data⟩,
         ⟨[n], d.data⟩) := by
  have henc := encodeSarses_ok s a r sp d n b.sSize b.aSize b.rSize b.sSize
    b.dSize hn hsh hah hrh hsph hdh hsl hal hrl hspl hdl
  refine ⟨_, henc, ?_⟩
  have hclen : ∀ (w : Nat) (data : List Int),
      (chunkRows n w data).length = (chunkRows n b.sSize s.data).length := by
    intro w data
    rw [chunkRows_length, chunkRows_length]
  have hwS : ∀ x ∈ chunkRows n b.sSize s.data, x.length = b.sSize :=
    chunkRows_row_length n b.sSize s.data hsl
  have hwA : ∀ x ∈ chunkRows n b.aSize a.data, x.length = b.aSize :=
    chunkRows_row_length n b.aSize a.data hal
  have hwR : ∀ x ∈ chunkRows n b.rSize r.data, x.length = b.rSize :=
    chunkRows_row_length n b.rSize r.data hrl
  have hwD : ∀ x ∈ chunkRows n b.dSize d.data, x.length = b.dSize :=
    chunkRows_row_length n b.dSize d.data hdl
  have hwSP : ∀ x ∈ chunkRows n b.sSize sp.data, x.length = b.sSize :=
    chunkRows_row_length n b.sSize sp.data hspl
  obtain ⟨e1, e2, e3, e4, e5⟩ := concatRows_slices
    (chunkRows n b.sSize s.data) (chunkRows n b.aSize a.data)
    (chunkRows n b.rSize r.data) (chunkRows n b.dSize d.data)
    (chunkRows n b.sSize sp.data)
    (hclen _ _) (hclen _ _) (hclen _ _) (hclen _ _) hwS hwA hwR hwD
  have hrowlen : ∀ row ∈ concatRows (chunkRows n b.sSize s.data)
      (chunkRows n b.aSize a.data) (chunkRows n b.rSize r.data)
      (chunkRows n b.dSize d.data) (chunkRows n b.sSize sp.data),
      row.length = b.sarsSize := by
    intro row hrow
    have h := concatRows_row_length _ _ _ _ _ (hclen _ _) (hclen _ _)
      (hclen _ _) (hclen _ _) hwS hwA hwR hwD hwSP row hrow
    have hsz : b.sarsSize = b.sSize * 2 + b.aSize + b.rSize + b.dSize := rfl
    omega
  have hlenrows : (concatRows (chunkRows n b.sSize s.data)
      (chunkRows n b.aSize a.data) (chunkRows n b.rSize r.data)
      (chunkRows n b.dSize d.data) (chunkRows n b.sSize sp.data)).length
      = n := by
    rw [concatRows_length _ _ _ _ _ (hclen _ _) (hclen _ _) (hclen _ _)
      (hclen _ _), chunkRows_length]
  rw [decodeSarses_ok b _ n hlenrows hrowlen hks hka hkr]
  have h1 : b.aSize + b.sSize = b.sSize + b.aSize := Nat.add_comm _ _
  rw [h1]
  have h2 : b.rSize + (b.sSize + b.aSize) = b.sSize + b.aSize + b.rSize := by
    omega
  rw [h2]
  have h3 : b.dSize + (b.sSize + b.aSize + b.rSize)
      = b.sSize + b.aSize + b.rSize + b.dSize := by
    omega
  rw [h3, e1, e2, e3, e4, e5,
    chunkRows_flatten n b.sSize s.data hsl,
    chunkRows_flatten n b.aSize a.data hal,
    chunkRows_flatten n b.rSize r.data hrl,
    chunkRows_flatten n b.dSize d.data hdl,
    chunkRows_flatten n b.sSize sp.data hspl]

/-- C2: FIFO eviction.  Pushing `c + k` single transitions (with the scalar
action/reward configuration under which single-example stores go through)
into a fresh capacity-`c` buffer succeeds, and afterwards the queue holds
exactly the packed records of the last `c` pushed transitions in order
(row 0 = oldest retained, row `c-1` = most recent); gathering rows at any
in-range indices — which is what `sample` decodes — only ever yields records
from that trailing window. -/
theorem C2_fifo_eviction (c k : Nat) (sShape aShape rShape : List Nat)
    (ts : List Transition) (hc : 1 ≤ c)
    (hA : prod aShape = 1) (hR : prod rShape = 1)
    (hts : ∀ t ∈ ts, t.s.length = prod sShape ∧ t.sp.length = prod sShape)
    (hlen : ts.length = c + k) :
    ∃ bF : ReplayBuffer,
      storeTrSeq (ReplayBuffer.init c sShape aShape rShape) ts = (bF, none) ∧
      bF.queue = (ts.drop k).map rowOf ∧
      bF.size = c ∧
      (∀ idx : List Nat, (∀ i ∈ idx, i < c) →
        ∀ row ∈ idx.map (fun i => bF.queue.getD i []),
          row ∈ (ts.drop k).map rowOf) := by
  obtain ⟨bF, h1, h2, h3, h4, h5⟩ := storeTrSeq_ok ts
    (ReplayBuffer.init c sShape aShape rShape)
    (init_WF c sShape aShape rShape) hc hA hR hts
  have hdrop : ∀ (A B : List (List Int)), A.length = c →
      (A ++ B).drop (c + k) = B.drop k := by
    intro A B hA2
    rw [← hA2, List.drop_append]
  have hq2 : bF.queue = (ts.drop k).map rowOf := by
    rw [h2, hlen, hdrop _ _ (by simp [ReplayBuffer.init]), List.map_drop]
  refine ⟨bF, h1, hq2, h3, ?_⟩
  intro idx hidx row hrow
  rcases List.mem_map.mp hrow with ⟨i, hi, rfl⟩
  rw [← hq2]
  have hqlen : bF.queue.length = c := by
    rw [hq2, List.length_map, List.length_drop, hlen]
    omega
  exact getD_mem _ _ _ (by rw [hqlen]; exact hidx i hi)

/-- Witness for C2: capacity 2, three single pushes; the queue afterwards is
exactly the last two records in order. -/
theorem C2_fifo_eviction_witness :
    ∃ bF : ReplayBuffer,
      storeTrSeq (ReplayBuffer.init 2 [] [] [])
        [⟨[10], 1, 2, [11], 0⟩, ⟨[20], 3, 4, [21], 0⟩, ⟨[30], 5, 6, [31], 1⟩]
        = (bF, none) ∧
      bF.queue = (([⟨[10], 1, 2, [11], 0⟩, ⟨[20], 3, 4, [21], 0⟩,
        ⟨[30], 5, 6, [31], 1⟩] : List Transition).drop 1).map rowOf ∧
      bF.size = 2 ∧
      (∀ idx : List Nat, (∀ i ∈ idx, i < 2) →
        ∀ row ∈ idx.map (fun i => bF.queue.getD i []),
          row ∈ (([⟨[10], 1, 2, [11], 0⟩, ⟨[20], 3, 4, [21], 0⟩,
            ⟨[30], 5, 6, [31], 1⟩] : List Transition).drop 1).map rowOf) :=
  C2_fifo_eviction 2 1 [] [] []
    [⟨[10], 1, 2, [11], 0⟩, ⟨[20], 3, 4, [21], 0⟩, ⟨[30], 5, 6, [31], 1⟩]
    (by decide) (by decide) (by decide) (by decide) (by decide)

theorem storeBatchSeq_contains :
    ∀ (ins : List (NDArray × NDArray × NDArray × NDArray × NDArray))
      (b bF : ReplayBuffer),
      storeBatchSeq b ins = (bF, none) →
      bF.size = b.size ∧
      (b.size ≤ bF.contains ↔
        b.size ≤ b.contains + (ins.map (fun t => t.1.shape.headD 0)).sum) := by
  intro ins
  induction ins with
  | nil =>
    intro b bF h
    simp only [storeBatchSeq] at h
    injection h with h1 h2
    subst h1
    exact ⟨rfl, by simp⟩
  | cons t ins ih =>
    intro b bF h
    simp only [storeBatchSeq] at h
    rcases hst : b.storeExampleBatch t.1 t.2.1 t.2.2.1 t.2.2.2.1 t.2.2.2.2
      with ⟨b2, err⟩
    rw [hst] at h
    cases err with
    | some e => simp at h
    | none =>
      obtain ⟨hsz, hiff⟩ := ih b2 bF h
      obtain ⟨hsize2, _, hcont⟩ := storeExampleBatch_fields b t.1 t.2.1
        t.2.2.1 t.2.2.2.1 t.2.2.2.2
      rw [hst] at hsize2 hcont
      have hc2 : b2.contains = if b.size ≤ b.contains then b.contains
          else b.contains + t.1.shape.headD 0 := hcont rfl
      refine ⟨by rw [hsz]; exact hsize2, ?_⟩
      rw [hsize2] at hiff
      rw [hc2] at hiff
      rw [hiff, List.map_cons, List.sum_cons]
      by_cases hss : b.size ≤ b.contains
      · rw [if_pos hss]
        omega
      · rw [if_neg hss]
        omega

/-- C3: in every reachable state `should_sample()` is exactly
`fill counter ≥ capacity` (by its definition); the fill counter never
decreases under any push, successful or failing; and along every error-free
sequence of pushes from a fresh buffer, `should_sample()` is true exactly
when the cumulative number of pushed transitions has reached the capacity —
false strictly below, true from the first crossing on, and absorbing
thereafter. -/
theorem C3_readiness_monotonic :
    (∀ b : ReplayBuffer, b.shouldSample = true ↔ b.size ≤ b.contains) ∧
    (∀ (b : ReplayBuffer) (s a r sp d : NDArray),
      b.contains ≤ (b.storeExampleBatch s a r sp d).1.contains) ∧
    (∀ (c : Nat) (sShape aShape rShape : List Nat)
      (ins : List (NDArray × NDArray × NDArray × NDArray × NDArray))
      (bF : ReplayBuffer),
      storeBatchSeq (ReplayBuffer.init c sShape aShape rShape) ins
        = (bF, none) →
      (bF.shouldSample = true ↔
        c ≤ (ins.map (fun t => t.1.shape.headD 0)).sum)) := by
  refine ⟨fun b => by simp [ReplayBuffer.shouldSample], ?_, ?_⟩
  · intro b s a r sp d
    exact (storeExampleBatch_fields b s a r sp d).2.1
  · intro c sShape aShape rShape ins bF h
    obtain ⟨hsz, hiff⟩ := storeBatchSeq_contains ins _ bF h
    have hbsz : bF.size = c := hsz
    have hiff2 : c ≤ bF.contains ↔
        c ≤ 0 + (ins.map (fun t => t.1.shape.headD 0)).sum := hiff
    rw [show bF.shouldSample = decide (bF.size ≤ bF.contains) from rfl,
      decide_eq_true_iff, hbsz]
    omega

/-- Witness for C3: one push of one transition into a capacity-1 buffer flips
the gate. -/
theorem C3_readiness_monotonic_witness :
    (⟨1, 1, [], [], [], [[7, 1, 2, 0, 8]]⟩ : ReplayBuffer).shouldSample
        = true ↔
      1 ≤ ([((⟨[1], [7]⟩ : NDArray), (⟨[1], [1]⟩ : NDArray),
        (⟨[1], [2]⟩ : NDArray), (⟨[1], [8]⟩ : NDArray),
        (⟨[1], [0]⟩ : NDArray))].map (fun t => t.1.shape.headD 0)).sum :=
  C3_readiness_monotonic.2.2 1 [] [] []
    [(⟨[1], [7]⟩, ⟨[1], [1]⟩, ⟨[1], [2]⟩, ⟨[1], [8]⟩, ⟨[1], [0]⟩)]
    ⟨1, 1, [], [], [], [[7, 1, 2, 0, 8]]⟩ (by decide)

/-- C4: in a ready, well-formed store with positive configured sizes,
`sample(n)` with `n ≤ capacity` and the pairwise-distinct in-range indices
drawn by `np.random.choice(size, n, replace=False)` succeeds; the five
outputs carry leading dimension `n` and the configured trailing shapes; the
`n` gathered rows come from pairwise-distinct row indices and each is a row
currently resident in the store; and the call leaves the buffer (contents
and fill counter) unchanged. -/
theorem C4_sample_distinct_resident (b : ReplayBuffer) (n : Nat)
    (indices : List Nat) (hwf : b.WF) (hready : b.size ≤ b.contains)
    (hn : n ≤ b.size) (hlen : indices.length = n) (hnd : indices.Nodup)
    (hb : ∀ i ∈ indices, i < b.size)
    (hs : 0 < b.sSize) (ha : 0 < b.aSize) (hr : 0 < b.rSize) :
    (∃ s a r sp d : NDArray,
      (b.sample n indices).1 = .ok (s, a, r, sp, d) ∧
      s.shape = n :: b.sShape ∧ a.shape = n :: b.aShape ∧
      r.shape = n :: b.rShape ∧ sp.shape = n :: b.sShape ∧
      d.shape = [n]) ∧
    (indices.map (fun i => b.queue.getD i [])).length = n ∧
    indices.Nodup ∧
    (∀ row ∈ indices.map (fun i => b.queue.getD i []), row ∈ b.queue) ∧
    (b.sample n indices).2 = b := by
  refine ⟨⟨_, _, _, _, _,
    sample_ok b n indices hwf hready hn hlen hb hs ha hr,
    rfl, rfl, rfl, rfl, rfl⟩, by rw [List.length_map, hlen], hnd, ?_, rfl⟩
  intro row hrow
  rcases List.mem_map.mp hrow with ⟨i, hi, rfl⟩
  exact getD_mem _ _ _ (by rw [hwf.1]; exact hb i hi)

/-- Witness for C4 at a concrete filled capacity-2 store sampled at
indices 1, 0. -/
theorem C4_sample_distinct_resident_witness :
    (∃ s a r sp d : NDArray,
      ((⟨2, 2, [], [], [], [[1, 2, 3, 0, 4], [5, 6, 7, 1, 8]]⟩ :
          ReplayBuffer).sample 2 [1, 0]).1 = .ok (s, a, r, sp, d) ∧
      s.shape = [2] ∧ a.shape = [2] ∧ r.shape = [2] ∧ sp.shape = [2] ∧
      d.shape = [2]) ∧
    ([1, 0].map (fun i => (⟨2, 2, [], [], [],
      [[1, 2, 3, 0, 4], [5, 6, 7, 1, 8]]⟩ : ReplayBuffer).queue.getD i
        [])).length = 2 ∧
    ([1, 0] : List Nat).Nodup ∧
    (∀ row ∈ [1, 0].map (fun i => (⟨2, 2, [], [], [],
        [[1, 2, 3, 0, 4], [5, 6, 7, 1, 8]]⟩ : ReplayBuffer).queue.getD i []),
      row ∈ (⟨2, 2, [], [], [],
        [[1, 2, 3, 0, 4], [5, 6, 7, 1, 8]]⟩ : ReplayBuffer).queue) ∧
    ((⟨2, 2, [], [], [], [[1, 2, 3, 0, 4], [5, 6, 7, 1, 8]]⟩ :
        ReplayBuffer).sample 2 [1, 0]).2
      = ⟨2, 2, [], [], [], [[1, 2, 3, 0, 4], [5, 6, 7, 1, 8]]⟩ :=
  C4_sample_distinct_resident
    ⟨2, 2, [], [], [], [[1, 2, 3, 0, 4], [5, 6, 7, 1, 8]]⟩ 2 [1, 0]
    (by constructor <;> decide) (by decide) (by decide) (by decide)
    (by decide) (by decide) (by decide) (by decide) (by decide)

/-- C5 (amended): `sample` raises whenever the gate is unsatisfied or
`n > capacity`, but in both cases it raises the *same* single error — the
code has only the one exception class `ReplayBufferError`, so the two
failure modes are not distinguishable error kinds; and `sample` succeeds
whenever the store is ready, well-formed with positive configured sizes, and
`n ≤ capacity`. -/
theorem C5_sample_error_kinds (b : ReplayBuffer) (n : Nat)
    (indices : List Nat) :
    (¬ b.size ≤ b.contains ∨ b.size < n →
      (b.sample n indices).1 = .error .replayBufferError) ∧
    (b.WF → b.size ≤ b.contains → n ≤ b.size → indices.length = n →
      (∀ i ∈ indices, i < b.size) →
      0 < b.sSize → 0 < b.aSize → 0 < b.rSize →
      ∃ out, (b.sample n indices).1 = .ok out) := by
  constructor
  · intro h
    unfold ReplayBuffer.sample
    simp only []
    rw [if_pos h]
  · intro hwf hready hn hlen hb hs ha hr
    exact ⟨_, sample_ok b n indices hwf hready hn hlen hb hs ha hr⟩

/-- C5 counterexample: sampling before readiness and sampling with
`n > capacity` after readiness raise the *identical* error value
`ReplayBufferError`, refuting the claim that the two failures are
distinguishable error kinds (`NotReadyError` vs `RequestTooLargeError`). -/
theorem C5_sample_error_kinds_counterexample :
    ((ReplayBuffer.init 2 [] [] []).sample 1 [0]).1
      = .error .replayBufferError ∧
    ((⟨2, 2, [], [], [], [[0, 0, 0, 0, 0], [0, 0, 0, 0, 0]]⟩ :
        ReplayBuffer).sample 3 [0, 1, 2]).1 = .error .replayBufferError :=
  ⟨rfl, rfl⟩

/-- Witness for C5 at concrete buffers: a failing call and a succeeding
call. -/
theorem C5_sample_error_kinds_witness :
    ((ReplayBuffer.init 2 [] [] []).sample 5 []).1
      = .error .replayBufferError ∧
    ∃ out, ((⟨1, 1, [], [], [], [[1, 2, 3, 0, 4]]⟩ :
      ReplayBuffer).sample 1 [0]).1 = .ok out :=
  ⟨(C5_sample_error_kinds (ReplayBuffer.init 2 [] [] []) 5 []).1 (by decide),
   (C5_sample_error_kinds ⟨1, 1, [], [], [], [[1, 2, 3, 0, 4]]⟩ 1 [0]).2
     (by constructor <;> decide) (by decide) (by decide) (by decide)
     (by decide) (by decide) (by decide) (by decide)⟩

/-- C6 (amended): a push that fails the encoder's leading-dimension check
raises before any field of the buffer is touched, so contents and fill
counter are unchanged; pushes that fail later — in the tail assignment,
after `_contains` was already bumped and `_pop` already shifted the rows —
do mutate the state before raising (see the counterexample). -/
theorem C6_failing_push_atomicity (b : ReplayBuffer) (s a r sp d : NDArray)
    (e : PyError)
    (h : encodeSarses s a.flatten r.flatten sp d.flatten = .error e) :
    b.storeExampleBatch s a r sp d = (b, some e) :=
  storeExampleBatch_encode_error b s a r sp d e h

/-- C6 counterexample: a push whose per-example widths do not fit the record
length raises numpy's ValueError only inside `_push`, *after* the fill
counter was incremented: the failing call returns with the counter at 1
though it started at 0, refuting "a failing push leaves the fill counter
unchanged". -/
theorem C6_failing_push_atomicity_counterexample :
    ((ReplayBuffer.init 2 [] [] []).storeExampleBatch ⟨[1, 2], [5, 6]⟩
        ⟨[1], [3]⟩ ⟨[1], [4]⟩ ⟨[1, 2], [7, 8]⟩ ⟨[1], [0]⟩).2
      = some .valueError ∧
    ((ReplayBuffer.init 2 [] [] []).storeExampleBatch ⟨[1, 2], [5, 6]⟩
        ⟨[1], [3]⟩ ⟨[1], [4]⟩ ⟨[1, 2], [7, 8]⟩ ⟨[1], [0]⟩).1.contains = 1 ∧
    (ReplayBuffer.init 2 [] [] []).contains = 0 := by
  refine ⟨rfl, rfl, rfl⟩

/-- Witness for C6: a leading-dimension mismatch (action batch of 2 against
state batch of 1) raises `ReplayBufferError` and returns the buffer exactly
as it was. -/
theorem C6_failing_push_atomicity_witness :
    (ReplayBuffer.init 2 [] [] []).storeExampleBatch ⟨[1], [5]⟩ ⟨[2], [3, 4]⟩
        ⟨[1], [6]⟩ ⟨[1], [7]⟩ ⟨[1], [0]⟩
      = (ReplayBuffer.init 2 [] [] [], some .replayBufferError) :=
  C6_failing_push_atomicity (ReplayBuffer.init 2 [] [] []) ⟨[1], [5]⟩
    ⟨[2], [3, 4]⟩ ⟨[1], [6]⟩ ⟨[1], [7]⟩ ⟨[1], [0]⟩ .replayBufferError rfl

/-- C8: evaluating the code at the failing input.  Pushing a batch of 3
correctly shaped transitions into a capacity-2 buffer does not keep the most
recent 2 of the batch: the tail assignment `queue[-3:] = sarses` cannot
broadcast 3 rows into the 2-row target and raises numpy's ValueError, after
the fill counter was already bumped to 3 and with the queue still holding
its zero rows. -/
theorem C8_oversized_batch_fails :
    (ReplayBuffer.init 2 [] [] []).storeExampleBatch ⟨[3], [10, 20, 30]⟩
        ⟨[3], [1, 2, 3]⟩ ⟨[3], [4, 5, 6]⟩ ⟨[3], [11, 21, 31]⟩
        ⟨[3], [0, 0, 1]⟩
      = (⟨2, 3, [], [], [], [[0, 0, 0, 0, 0], [0, 0, 0, 0, 0]]⟩,
         some PyError.valueError) :=
  rfl

/-- C9: what construction actually does.  With the missing `size` supplied,
the constructor records the shapes, zeroes the fill counter and allocates a
zero matrix of shape `(size, record_length)` with
`record_length = 2*|S| + |A| + |R| + 1`; but an actual call of the source
constructor raises `NameError` (the signature omits `size` even though its
docstring documents it), and no `ConfigurationError` exists: `size = 0` is
accepted, producing a degenerate empty store. -/
theorem C9_construction :
    (∀ (c : Nat) (sShape aShape rShape : List Nat),
      (ReplayBuffer.init c sShape aShape rShape).size = c ∧
      (ReplayBuffer.init c sShape aShape rShape).contains = 0 ∧
      (ReplayBuffer.init c sShape aShape rShape).queue.length = c ∧
      (∀ row ∈ (ReplayBuffer.init c sShape aShape rShape).queue,
        row = List.replicate
          (2 * prod sShape + prod aShape + prod rShape + 1) 0) ∧
      (ReplayBuffer.init c sShape aShape rShape).sarsSize
        = 2 * prod sShape + prod aShape + prod rShape + 1) ∧
    (∀ sShape aShape rShape : List Nat,
      ReplayBuffer.initCall sShape aShape rShape = .error .nameError) ∧
    (ReplayBuffer.init 0 [] [] []).queue = [] := by
  refine ⟨?_, fun _ _ _ => rfl, rfl⟩
  intro c sS aS rS
  refine ⟨rfl, rfl, by simp [ReplayBuffer.init], ?_, ?_⟩
  · intro row hr
    have hrow := List.eq_of_mem_replicate hr
    rw [hrow]
    congr 1
    omega
  · show prod sS * 2 + prod aS + prod rS + 1
      = 2 * prod sS + prod aS + prod rS + 1
    omega

/-- Witness for C9: a row of the freshly allocated capacity-2 store with
state shape (1,) is the zero record of length 2*1 + 1 + 1 + 1 = 5. -/
theorem C9_construction_witness :
    List.replicate 5 (0 : Int)
      = List.replicate (2 * prod [1] + prod [] + prod [] + 1) 0 :=
  (C9_construction.1 2 [1] [] []).2.2.2.1 (List.replicate 5 0) (by decide)

theorem pop_queue_length (b : ReplayBuffer) (n : Nat)
    (h : n ≤ b.queue.length) : (b.pop n).queue.length = b.queue.length := by
  simp only [ReplayBuffer.pop]
  simp [List.length_drop]

/-- C7 (amended): the encoder never compares per-example element counts with
the declared shapes.  Through the public push, a batch whose five leading
dimensions agree but whose per-example widths sum to something other than
the record length fails with numpy's generic `ValueError`, raised by the
tail assignment inside `_push` â not with the buffer's own error; and when
the widths happen to compensate and sum to exactly the record length, the
push succeeds and stores misaligned rows (see the counterexample). -/
theorem C7_no_declared_shape_check (b : ReplayBuffer) (s a r sp d : NDArray)
    (n ks ksp : Nat) (hwf : b.WF) (hn : 0 < n) (hsize : n ≤ b.size)
    (hsh : s.shape.headD 0 = n) (hsph : sp.shape.headD 0 = n)
    (hal : a.data.length = n) (hrl : r.data.length = n)
    (hdl : d.data.length = n)
    (hsl : s.data.length = n * ks) (hspl : sp.data.length = n * ksp)
    (hmm : ks + 1 + 1 + 1 + ksp ≠ b.sarsSize) :
    (b.storeExampleBatch s a r sp d).2 = some .valueError := by
  have hql : b.queue.length = b.size := hwf.1
  have henc : encodeSarses s a.flatten r.flatten sp d.flatten
      = .ok (concatRows (chunkRows n ks s.data)
        (chunkRows n 1 a.data) (chunkRows n 1 r.data) (chunkRows n 1 d.data)
        (chunkRows n ksp sp.data)) := by
    have h := encodeSarses_ok s a.flatten r.flatten sp d.flatten n
      ks 1 1 ksp 1 hn hsh
      (by simpa [NDArray.flatten] using hal)
      (by simpa [NDArray.flatten] using hrl) hsph
      (by simpa [NDArray.flatten] using hdl) hsl
      (by simpa [NDArray.flatten] using hal)
      (by simpa [NDArray.flatten] using hrl) hspl
      (by simpa [NDArray.flatten] using hdl)
    simpa [NDArray.flatten] using h
  set sarses := concatRows (chunkRows n ks s.data)
    (chunkRows n 1 a.data) (chunkRows n 1 r.data) (chunkRows n 1 d.data)
    (chunkRows n ksp sp.data) with hsar
  have hclen : ∀ (w : Nat) (data : List Int), (chunkRows n w data).length
      = (chunkRows n ks s.data).length := by
    intro w data
    rw [chunkRows_length, chunkRows_length]
  have hslen : sarses.length = n := by
    rw [hsar, concatRows_length _ _ _ _ _ (hclen 1 a.data) (hclen 1 r.data)
      (hclen 1 d.data) (hclen ksp sp.data), chunkRows_length]
  have hrows : ∀ row ∈ sarses,
      row.length = ks + 1 + 1 + 1 + ksp := by
    rw [hsar]
    exact concatRows_row_length _ _ _ _ _ (hclen 1 a.data) (hclen 1 r.data)
      (hclen 1 d.data) (hclen ksp sp.data)
      (chunkRows_row_length n _ s.data hsl)
      (chunkRows_row_length n 1 a.data (by omega))
      (chunkRows_row_length n 1 r.data (by omega))
      (chunkRows_row_length n 1 d.data (by omega))
      (chunkRows_row_length n _ sp.data hspl)
  have hne : sarses ≠ [] := by
    intro h0
    rw [h0] at hslen
    simp at hslen
    omega
  have hhd : (sarses.headD []).length = ks + 1 + 1 + 1 + ksp :=
    hrows _ (headD_mem _ _ hne)
  rw [storeExampleBatch_of_encode_ok b s a r sp d henc]
  simp only []
  rw [hslen]
  by_cases hss : b.size ≤ b.contains
  · rw [if_pos hss,
      push_error_of_width (b.pop n) sarses n hslen hn
        (by rw [pop_queue_length b n (by omega)]; omega)
        (by rw [hhd]; exact hmm) (by rw [hhd]; omega)]
  · rw [if_neg hss,
      push_error_of_width
        (ReplayBuffer.pop { b with contains := b.contains + n } n) sarses n
        hslen hn
        (by rw [pop_queue_length _ n (by show n ≤ b.queue.length; omega)]
            show n ≤ b.queue.length
            omega)
        (by rw [hhd]; exact hmm) (by rw [hhd]; omega)]

/-- C7 counterexample: with declared state shape (2,), a batch whose state
has 3 elements per example and next-state only 1 (both wrong) is accepted
without any error, because the widths compensate (3+1+1+1+1 = 7 = record
length); the claim that such calls fail with `ShapeMismatchError` is false. -/
theorem C7_no_declared_shape_check_counterexample :
    ((ReplayBuffer.init 2 [2] [] []).storeExampleBatch ⟨[1, 3], [1, 2, 3]⟩
        ⟨[1], [4]⟩ ⟨[1], [5]⟩ ⟨[1, 1], [9]⟩ ⟨[1], [0]⟩).2 = none :=
  rfl

/-- Witness for C7: a width-2 state against a width-1 record slot makes the
packed width 7 ≠ 5, and the push fails with numpy's ValueError. -/
theorem C7_no_declared_shape_check_witness :
    ((ReplayBuffer.init 3 [] [] []).storeExampleBatch ⟨[1, 2], [5, 6]⟩
        ⟨[1], [3]⟩ ⟨[1], [4]⟩ ⟨[1, 2], [7, 8]⟩ ⟨[1], [0]⟩).2
      = some .valueError :=
  C7_no_declared_shape_check (ReplayBuffer.init 3 [] [] []) ⟨[1, 2], [5, 6]⟩
    ⟨[1], [3]⟩ ⟨[1], [4]⟩ ⟨[1, 2], [7, 8]⟩ ⟨[1], [0]⟩ 1 2 2
    (by constructor <;> decide) (by decide) (by decide) (by decide)
    (by decide) (by decide) (by decide) (by decide) (by decide) (by decide)
    (by decide)

/-- C10: for every buffer whose action or reward shape has size k > 1, every
correctly shaped batch of n ≥ 1 transitions is rejected by the public push:
`store_example_batch` flattens the action and reward batches, so their
leading dimension becomes n*k ≠ n, and the encoder's batch-size equality
check raises `ReplayBufferError` before anything is stored — the buffer is
returned unchanged. -/
theorem C10_flatten_rejects_wide_actions (b : ReplayBuffer)
    (s a r sp d : NDArray) (n : Nat) (hn : 0 < n)
    (hwide : 2 ≤ prod b.aShape ∨ 2 ≤ prod b.rShape)
    (hsh : s.shape = n :: b.sShape) (hah : a.shape = n :: b.aShape)
    (hrh : r.shape = n :: b.rShape) (hsph : sp.shape = n :: b.sShape)
    (hdh : d.shape = [n])
    (hsl : s.data.length = n * prod b.sShape)
    (hal : a.data.length = n * prod b.aShape)
    (hrl : r.data.length = n * prod b.rShape)
    (hspl : sp.data.length = n * prod b.sShape)
    (hdl : d.data.length = n) :
    b.storeExampleBatch s a r sp d = (b, some .replayBufferError) := by
  apply storeExampleBatch_encode_error
  have hcond : s.shape.headD 0 ≠ (a.flatten).shape.headD 0 ∨
      s.shape.headD 0 ≠ (r.flatten).shape.headD 0 ∨
      s.shape.headD 0 ≠ sp.shape.headD 0 ∨
      s.shape.headD 0 ≠ (d.flatten).shape.headD 0 := by
    have hsh0 : s.shape.headD 0 = n := by rw [hsh]; rfl
    have hah0 : (a.flatten).shape.headD 0 = a.data.length := rfl
    have hrh0 : (r.flatten).shape.headD 0 = r.data.length := rfl
    rcases hwide with hp | hp
    · left
      rw [hsh0, hah0, hal]
      have h2 : n * 2 ≤ n * prod b.aShape := Nat.mul_le_mul_left n hp
      omega
    · right
      left
      rw [hsh0, hrh0, hrl]
      have h2 : n * 2 ≤ n * prod b.rShape := Nat.mul_le_mul_left n hp
      omega
  unfold encodeSarses
  simp only []
  rw [if_pos hcond]

/-- Witness for C10: a correctly shaped single transition for action shape
(2,) is rejected with `ReplayBufferError` and the buffer is unchanged. -/
theorem C10_flatten_rejects_wide_actions_witness :
    (ReplayBuffer.init 2 [] [2] []).storeExampleBatch ⟨[1], [1]⟩
        ⟨[1, 2], [1, 2]⟩ ⟨[1], [4]⟩ ⟨[1], [5]⟩ ⟨[1], [0]⟩
      = (ReplayBuffer.init 2 [] [2] [], some .replayBufferError) :=
  C10_flatten_rejects_wide_actions (ReplayBuffer.init 2 [] [2] [])
    ⟨[1], [1]⟩ ⟨[1, 2], [1, 2]⟩ ⟨[1], [4]⟩ ⟨[1], [5]⟩ ⟨[1], [0]⟩ 1
    (by decide) (by decide) (by decide) (by decide) (by decide) (by decide)
    (by decide) (by decide) (by decide) (by decide) (by decide) (by decide)

/-- Witness for C1 at a concrete two-example batch: state shape (2,), action
shape (1,), scalar reward. -/
theorem C1_encode_decode_round_trip_witness :
    ∃ rows, encodeSarses ⟨[2, 2], [1, 2, 3, 4]⟩ ⟨[2, 1], [5, 6]⟩
        ⟨[2], [7, 8]⟩ ⟨[2, 2], [9, 10, 11, 12]⟩ ⟨[2], [0, 1]⟩ = .ok rows ∧
      (ReplayBuffer.init 2 [2] [1] []).decodeSarses rows = .ok
        (⟨[2, 2], [1, 2, 3, 4]⟩, ⟨[2, 1], [5, 6]⟩, ⟨[2], [7, 8]⟩,
         ⟨[2, 2], [9, 10, 11, 12]⟩, ⟨[2], [0, 1]⟩) :=
  C1_encode_decode_round_trip (ReplayBuffer.init 2 [2] [1] [])
    ⟨[2, 2], [1, 2, 3, 4]⟩ ⟨[2, 1], [5, 6]⟩ ⟨[2], [7, 8]⟩
    ⟨[2, 2], [9, 10, 11, 12]⟩ ⟨[2], [0, 1]⟩ 2 (by decide) (by decide)
    (by decide) (by decide) (by decide) (by decide) (by decide) (by decide)
    (by decide) (by decide) (by decide) (by decide) (by decide) (by decide)
